import Mathlib

/-!
Verification of the connection-upgrade and stream-multiplexing core of the
go-libp2p repository, against its natural-language specification.

The Go source is shallowly embedded: pure functions become Lean functions,
mutex-serialized stateful code becomes explicit state machines driven by
event lists, machine integers become `Nat` (no overflow occurs in the
embedded code paths: all quantities are small counters, port numbers or
nanosecond durations well below 2^63).
-/

/-! ## Multiaddr model (external go-multiaddr collaborator)

A multiaddress is a sequence of protocol components.  Each component has a
protocol code and a numeric value (a port for tcp/udp, the numeric IP for
ip4/ip6, 0 for valueless protocols).  The protocol codes are the real
go-multiaddr code points. -/

def P_IP4 : Nat := 4
def P_TCP : Nat := 6
def P_UDP : Nat := 273
def P_IP6 : Nat := 41
def P_QUIC : Nat := 460
def P_QUIC_V1 : Nat := 461
def P_WEBTRANSPORT : Nat := 465
def P_WEBRTC_DIRECT : Nat := 280
def P_CIRCUIT : Nat := 290
def P_ONION3 : Nat := 445

structure Component where
  code : Nat
  value : Nat
deriving DecidableEq, Repr, Inhabited

/-- A multiaddress: a list of protocol components. -/
abbrev Multiaddr := List Component

/-- Source: `a.ValueForProtocol(p)`: the value of the first component with protocol
code `p`, if any (go-multiaddr returns an error when absent, embedded as
`none`). -/
def ValueForProtocol (a : Multiaddr) (p : Nat) : Option Nat :=
  (a.find? (fun c => c.code == p)).map (·.value)

/-- Source: `isProtocolAddr` from `p2p/net/swarm/dial_ranker.go`: does the address
contain a component of protocol `p` (via `ma.ForEach`). -/
def isProtocolAddr (a : Multiaddr) (p : Nat) : Bool :=
  a.any (fun c => c.code == p)

/-- Source: `isQUICAddr` from `p2p/net/swarm/dial_ranker.go`. -/
def isQUICAddr (a : Multiaddr) : Bool :=
  isProtocolAddr a P_QUIC || isProtocolAddr a P_QUIC_V1

/-- Modelled from the spec: `isRelayAddr` (defined in swarm code not included
in the source snapshot; only its callers are).  The spec partitions out
"relay (circuit) addresses", i.e. addresses containing the p2p-circuit
protocol component. -/
def isRelayAddr (a : Multiaddr) : Bool :=
  isProtocolAddr a P_CIRCUIT

/-- RFC 1918 / loopback IPv4 test on the numeric 32-bit address value.
Part of the model of the external go-multiaddr `manet.IsPrivateAddr`
collaborator ("localhost and local networks (RFC 1918)" per the spec). -/
def isPrivateIPv4 (v : Nat) : Bool :=
  (v >>> 24 == 10) || (v >>> 20 == 2753) || (v >>> 16 == 49320) || (v >>> 24 == 127)

/-- Loopback / unique-local IPv6 test on the numeric 128-bit address value.
Part of the model of the external `manet.IsPrivateAddr` collaborator. -/
def isPrivateIPv6 (v : Nat) : Bool :=
  (v == 1) || (v >>> 121 == 126)

/-- Model of the external go-multiaddr `manet.IsPrivateAddr` collaborator:
an address is private when its leading IP component is a localhost or
local-network (RFC 1918 / IPv6 unique-local) address. -/
def IsPrivateAddr (a : Multiaddr) : Bool :=
  match a.head? with
  | some c =>
    if c.code == P_IP4 then isPrivateIPv4 c.value
    else if c.code == P_IP6 then isPrivateIPv6 c.value
    else false
  | none => false

/-! ## Dial ranker (`p2p/net/swarm/dial_ranker.go`) -/

/-- One nanosecond-valued millisecond, matching Go `time.Millisecond`. -/
def msec : Nat := 1000000

/-- Source: `PublicTCPDelay = 250 * time.Millisecond`. -/
def PublicTCPDelay : Nat := 250 * msec

/-- Source: `PrivateTCPDelay = 30 * time.Millisecond`. -/
def PrivateTCPDelay : Nat := 30 * msec

/-- Source: `PublicQUICDelay = 250 * time.Millisecond`. -/
def PublicQUICDelay : Nat := 250 * msec

/-- Source: `PrivateQUICDelay = 30 * time.Millisecond`. -/
def PrivateQUICDelay : Nat := 30 * msec

/-- Source: `RelayDelay = 500 * time.Millisecond`. -/
def RelayDelay : Nat := 500 * msec

/-- Source: `PublicOtherDelay = 1 * time.Second`. -/
def PublicOtherDelay : Nat := 1000 * msec

/-- Source: `PrivateOtherDelay = 100 * time.Millisecond`. -/
def PrivateOtherDelay : Nat := 100 * msec

/-- Source: `network.AddrDelay`: an (address, dial delay) pair. -/
structure AddrDelay where
  addr : Multiaddr
  delay : Nat
deriving DecidableEq, Repr

/-- Source: `score` from `dial_ranker.go`: scores a multiaddress for dialing delay
(lower is better).  The lower 16 bits are the port; a missing or
unparsable port contributes 0 (Go's `strconv.Atoi` error case). -/
def score (a : Multiaddr) : Nat :=
  let ip4Weight : Nat := if isProtocolAddr a P_IP4 then 1 <<< 18 else 0
  if (ValueForProtocol a P_WEBTRANSPORT).isSome then
    ip4Weight + (1 <<< 19) + (ValueForProtocol a P_UDP).getD 0
  else if (ValueForProtocol a P_QUIC).isSome then
    ip4Weight + (ValueForProtocol a P_UDP).getD 0 + (1 <<< 17)
  else if (ValueForProtocol a P_QUIC_V1).isSome then
    ip4Weight + (ValueForProtocol a P_UDP).getD 0
  else
    match ValueForProtocol a P_TCP with
    | some p => ip4Weight + p + (1 <<< 20)
    | none =>
      if (ValueForProtocol a P_WEBRTC_DIRECT).isSome then 1 <<< 21
      else 1 <<< 30

/-- One step of `filterAddrs`'s in-place swap partition: when a matching
element at position `i` is swapped down to position `j`, the block of
previously seen non-matching elements (positions `j..i-1`) is rotated:
its first element moves to the end of the block. -/
def rot1 : List Multiaddr → List Multiaddr
  | [] => []
  | h :: t => t ++ [h]

/-- The loop of `filterAddrs` from `dial_ranker.go`.  `m` is the prefix of
matched elements (positions `0..j-1`), `u` the block of unmatched elements
seen so far, in the order the in-place swaps leave them. -/
def filterLoop (f : Multiaddr → Bool) :
    List Multiaddr → List Multiaddr → List Multiaddr → List Multiaddr × List Multiaddr
  | m, u, [] => (m, u)
  | m, u, x :: xs =>
    if f x then filterLoop f (m ++ [x]) (rot1 u) xs
    else filterLoop f m (u ++ [x]) xs

/-- Source: `filterAddrs` from `dial_ranker.go`: partitions an address slice in
place, returning the matching elements (in order, positions `0..j-1` of the
mutated slice) and the rest. -/
def filterAddrs (addrs : List Multiaddr) (f : Multiaddr → Bool) :
    List Multiaddr × List Multiaddr :=
  filterLoop f [] [] addrs

/-- First index `≥ start` whose element satisfies `p`, mirroring the Go
scan loops `for j := start; j < len(addrs); j++`. -/
def findFrom (l : List Multiaddr) (start : Nat) (p : Multiaddr → Bool) : Option Nat :=
  ((l.drop start).findIdx? p).map (· + start)

/-- The in-place element move in `getAddrDelay`:
`a := addrs[j]; copy(addrs[dst+1:], addrs[dst:j]); addrs[dst] = a`,
performed only when `j > dst` (as in the source). -/
def moveTo (l : List Multiaddr) (dst j : Nat) : List Multiaddr :=
  if j > dst then (l.eraseIdx j).insertIdx dst (l.getD j default) else l

/-- The first reorder block of `getAddrDelay`: if the first (QUIC) address
is IPv6, move the first QUIC IPv4 address to the second position.  Returns
the reordered list, the `happyEyeballsQUIC` flag and the scan resume index
`i`. -/
def reorderQUIC (l : List Multiaddr) : List Multiaddr × Bool × Nat :=
  match l.head? with
  | none => (l, false, 0)
  | some a0 =>
    if isQUICAddr a0 && isProtocolAddr a0 P_IP6 then
      match findFrom l 1 (fun a => isQUICAddr a && isProtocolAddr a P_IP4) with
      | some j => (moveTo l 1 j, true, j + 1)
      | none => (l, false, 0)
    else (l, false, 0)

/-- The second reorder block of `getAddrDelay`: if the first TCP address is
IPv6, move the first TCP IPv4 address to position `tcpStartIdx+1`.  Returns
the reordered list and the `happyEyeballsTCP` flag. -/
def reorderTCP (l : List Multiaddr) (tcpStartIdx : Nat) : List Multiaddr × Bool :=
  if tcpStartIdx < l.length then
    if isProtocolAddr (l.getD tcpStartIdx default) P_IP6 then
      match findFrom l (tcpStartIdx + 1)
          (fun a => isProtocolAddr a P_TCP && isProtocolAddr a P_IP4) with
      | some j => (moveTo l (tcpStartIdx + 1) j, true)
      | none => (l, false)
    else (l, false)
  else (l, false)

/-- The delay-assignment loop of `getAddrDelay`.  `i` is the loop index,
`tcpFirstDialDelay` and `lastQUICOrTCPDelay` the two mutable state
variables of the Go loop. -/
def delayLoop (tcpDelay quicDelay otherDelay offset : Nat) (heQUIC heTCP : Bool)
    (tcpStartIdx : Nat) :
    Nat → Nat → Nat → List Multiaddr → List AddrDelay
  | _, _, _, [] => []
  | i, tcpFirstDialDelay, lastQUICOrTCPDelay, addr :: rest =>
    if isQUICAddr addr then
      let delay :=
        if i = 1 then quicDelay
        else if i > 1 then (if heQUIC then 2 * quicDelay else quicDelay)
        else 0
      ⟨addr, offset + delay⟩ ::
        delayLoop tcpDelay quicDelay otherDelay offset heQUIC heTCP tcpStartIdx
          (i + 1) (delay + tcpDelay) delay rest
    else if isProtocolAddr addr P_TCP then
      let d0 :=
        if i = tcpStartIdx + 1 then tcpDelay
        else if i > tcpStartIdx + 1 then (if heTCP then 2 * tcpDelay else tcpDelay)
        else 0
      let delay := d0 + tcpFirstDialDelay
      ⟨addr, offset + delay⟩ ::
        delayLoop tcpDelay quicDelay otherDelay offset heQUIC heTCP tcpStartIdx
          (i + 1) tcpFirstDialDelay delay rest
    else
      let delay := lastQUICOrTCPDelay + otherDelay
      ⟨addr, offset + delay⟩ ::
        delayLoop tcpDelay quicDelay otherDelay offset heQUIC heTCP tcpStartIdx
          (i + 1) tcpFirstDialDelay lastQUICOrTCPDelay rest

/-- Source: `getAddrDelay` from `dial_ranker.go`: ranks one group of addresses.
The Go `sort.Slice` call (an arbitrary comparison sort on the strict
`score` order, with unspecified tie order) is embedded as a merge sort on
the reflexive closure of that order. -/
def getAddrDelay (addrs : List Multiaddr)
    (tcpDelay quicDelay otherDelay offset : Nat) : List AddrDelay :=
  if addrs.isEmpty then [] else
  let sorted := addrs.mergeSort (fun x y => score x ≤ score y)
  let rq := reorderQUIC sorted
  let l1 := rq.1
  let heQUIC := rq.2.1
  let i := rq.2.2
  let tcpStartIdx := (findFrom l1 i (fun a => isProtocolAddr a P_TCP)).getD l1.length
  let rt := reorderTCP l1 tcpStartIdx
  delayLoop tcpDelay quicDelay otherDelay offset heQUIC rt.2 tcpStartIdx 0 0 0 rt.1

/-- Source: `NoDelayDialRanker` from `dial_ranker.go`. -/
def NoDelayDialRanker (addrs : List Multiaddr) : List AddrDelay :=
  getAddrDelay addrs 0 0 0 0

/-- The three ranked groups of `DefaultDialRanker` (private, public,
relay), concatenated in source order: everything the function computes
before appending the leftover "other" (non-IP) addresses. -/
def rankedGroups (addrs : List Multiaddr) : List AddrDelay :=
  let fr := filterAddrs addrs isRelayAddr
  let fp := filterAddrs fr.2 IsPrivateAddr
  let fpub := filterAddrs fp.2 (fun a => isProtocolAddr a P_IP4 || isProtocolAddr a P_IP6)
  let relayOffset := if fpub.1.length > 0 then RelayDelay else 0
  getAddrDelay fp.1 PrivateTCPDelay PrivateQUICDelay PrivateOtherDelay 0
    ++ getAddrDelay fpub.1 PublicTCPDelay PublicQUICDelay PublicOtherDelay 0
    ++ getAddrDelay fr.1 PublicTCPDelay PublicQUICDelay PublicOtherDelay relayOffset

/-- The leftover addresses of `DefaultDialRanker`: neither relay, nor
private, nor containing an ip4/ip6 component. -/
def otherRest (addrs : List Multiaddr) : List Multiaddr :=
  (filterAddrs
    (filterAddrs (filterAddrs addrs isRelayAddr).2 IsPrivateAddr).2
    (fun a => isProtocolAddr a P_IP4 || isProtocolAddr a P_IP6)).2

/-- The delay of the last entry of the ranked groups (`res[len(res)-1].Delay`
in the source, 0 when the ranking is empty). -/
def lastRankedDelay (addrs : List Multiaddr) : Nat :=
  match (rankedGroups addrs).getLast? with
  | some ad => ad.delay
  | none => 0

/-- Source: `DefaultDialRanker` from `dial_ranker.go`. -/
def DefaultDialRanker (addrs : List Multiaddr) : List AddrDelay :=
  rankedGroups addrs
    ++ (otherRest addrs).map (fun a => ⟨a, lastRankedDelay addrs + PublicOtherDelay⟩)

/-! ## Basic lemmas about the ranking pipeline -/

theorem delayLoop_map_addr (tD qD oD off : Nat) (hq ht : Bool) (tsi : Nat) :
    ∀ (l : List Multiaddr) (i tf lq : Nat),
      (delayLoop tD qD oD off hq ht tsi i tf lq l).map (·.addr) = l
  | [], _, _, _ => rfl
  | a :: rest, i, tf, lq => by
    unfold delayLoop
    split
    · simpa using delayLoop_map_addr tD qD oD off hq ht tsi rest _ _ _
    · split
      · simpa using delayLoop_map_addr tD qD oD off hq ht tsi rest _ _ _
      · simpa using delayLoop_map_addr tD qD oD off hq ht tsi rest _ _ _

theorem perm_insertIdx (a : Multiaddr) :
    ∀ (n : Nat) (l : List Multiaddr), n ≤ l.length → (l.insertIdx n a).Perm (a :: l)
  | 0, l, _ => by simp
  | n + 1, [], h => by simp at h
  | n + 1, x :: t, h => by
    simp only [List.insertIdx_succ_cons]
    exact ((perm_insertIdx a n t (by simpa using h)).cons x).trans (List.Perm.swap a x t)

theorem getD_cons_eraseIdx_perm :
    ∀ (j : Nat) (l : List Multiaddr), j < l.length →
      (l.getD j default :: l.eraseIdx j).Perm l
  | 0, x :: t, _ => by simp
  | j + 1, x :: t, h => by
    simp only [List.getD_cons_succ, List.eraseIdx_cons_succ]
    exact (List.Perm.swap x (t.getD j default) (t.eraseIdx j)).trans
      ((getD_cons_eraseIdx_perm j t (by simpa using h)).cons x)

theorem moveTo_perm (l : List Multiaddr) (dst j : Nat) (hj : j < l.length) :
    (moveTo l dst j).Perm l := by
  unfold moveTo
  split
  · rename_i hgt
    have hlen : (l.eraseIdx j).length = l.length - 1 := List.length_eraseIdx_of_lt hj
    have hdst : dst ≤ (l.eraseIdx j).length := by omega
    exact (perm_insertIdx _ dst _ hdst).trans (getD_cons_eraseIdx_perm j l hj)
  · exact List.Perm.refl l

theorem findFrom_bounds {l : List Multiaddr} {s j : Nat} {p : Multiaddr → Bool}
    (h : findFrom l s p = some j) : s ≤ j ∧ j < l.length := by
  unfold findFrom at h
  rcases Option.map_eq_some'.1 h with ⟨i, hi, rfl⟩
  have := (List.findIdx?_eq_some_iff_findIdx_eq.1 hi).1
  have hds : (l.drop s).length = l.length - s := List.length_drop s l
  omega

theorem reorderQUIC_perm (l : List Multiaddr) : (reorderQUIC l).1.Perm l := by
  unfold reorderQUIC
  cases l.head? with
  | none => exact List.Perm.refl l
  | some a0 =>
    simp only
    split
    · cases hf : findFrom l 1 (fun a => isQUICAddr a && isProtocolAddr a P_IP4) with
      | none => exact List.Perm.refl l
      | some j => exact moveTo_perm l 1 j (findFrom_bounds hf).2
    · exact List.Perm.refl l

theorem reorderTCP_perm (l : List Multiaddr) (tsi : Nat) : (reorderTCP l tsi).1.Perm l := by
  unfold reorderTCP
  split
  · split
    · cases hf : findFrom l (tsi + 1)
        (fun a => isProtocolAddr a P_TCP && isProtocolAddr a P_IP4) with
      | none => exact List.Perm.refl l
      | some j => exact moveTo_perm l (tsi + 1) j (findFrom_bounds hf).2
    · exact List.Perm.refl l
  · exact List.Perm.refl l

theorem getAddrDelay_map_addr_perm (l : List Multiaddr) (tD qD oD off : Nat) :
    ((getAddrDelay l tD qD oD off).map (·.addr)).Perm l := by
  unfold getAddrDelay
  split
  · rename_i he
    simp [List.isEmpty_iff.1 he]
  · rw [delayLoop_map_addr]
    exact ((reorderTCP_perm _ _).trans (reorderQUIC_perm _)).trans (List.mergeSort_perm l _)

theorem mem_rot1 {a : Multiaddr} {u : List Multiaddr} (h : a ∈ rot1 u) : a ∈ u := by
  cases u with
  | nil => simp [rot1] at h
  | cons x t => simp [rot1] at h; rcases h with h | h <;> simp [h]

theorem filterLoop_fst_mem (f : Multiaddr → Bool) :
    ∀ (l m u : List Multiaddr) (a : Multiaddr), a ∈ (filterLoop f m u l).1 →
      a ∈ m ∨ (a ∈ l ∧ f a = true)
  | [], m, u, a => fun h => Or.inl h
  | x :: xs, m, u, a => by
    unfold filterLoop
    split
    · rename_i hfx
      intro h
      rcases filterLoop_fst_mem f xs (m ++ [x]) (rot1 u) a h with h' | h'
      · rcases List.mem_append.1 h' with h'' | h''
        · exact Or.inl h''
        · simp at h''; subst h''; exact Or.inr ⟨by simp, hfx⟩
      · exact Or.inr ⟨by simp [h'.1], h'.2⟩
    · intro h
      rcases filterLoop_fst_mem f xs m (u ++ [x]) a h with h' | h'
      · exact Or.inl h'
      · exact Or.inr ⟨by simp [h'.1], h'.2⟩

theorem filterLoop_snd_mem (f : Multiaddr → Bool) :
    ∀ (l m u : List Multiaddr) (a : Multiaddr), a ∈ (filterLoop f m u l).2 →
      a ∈ u ∨ (a ∈ l ∧ f a = false)
  | [], m, u, a => fun h => Or.inl h
  | x :: xs, m, u, a => by
    unfold filterLoop
    split
    · intro h
      rcases filterLoop_snd_mem f xs (m ++ [x]) (rot1 u) a h with h' | h'
      · exact Or.inl (mem_rot1 h')
      · exact Or.inr ⟨by simp [h'.1], h'.2⟩
    · rename_i hfx
      intro h
      rcases filterLoop_snd_mem f xs m (u ++ [x]) a h with h' | h'
      · rcases List.mem_append.1 h' with h'' | h''
        · exact Or.inl h''
        · simp at h''; subst h''
          exact Or.inr ⟨by simp, by simpa using hfx⟩
      · exact Or.inr ⟨by simp [h'.1], h'.2⟩

theorem filterAddrs_fst_prop {f : Multiaddr → Bool} {l : List Multiaddr} {a : Multiaddr}
    (h : a ∈ (filterAddrs l f).1) : f a = true := by
  rcases filterLoop_fst_mem f l [] [] a h with h' | h'
  · simp at h'
  · exact h'.2

theorem filterAddrs_snd_prop {f : Multiaddr → Bool} {l : List Multiaddr} {a : Multiaddr}
    (h : a ∈ (filterAddrs l f).2) : f a = false := by
  rcases filterLoop_snd_mem f l [] [] a h with h' | h'
  · simp at h'
  · exact h'.2

theorem mem_getAddrDelay_addr {e : AddrDelay} {l : List Multiaddr} {tD qD oD off : Nat}
    (h : e ∈ getAddrDelay l tD qD oD off) : e.addr ∈ l := by
  have hm : e.addr ∈ (getAddrDelay l tD qD oD off).map (·.addr) :=
    List.mem_map_of_mem (·.addr) h
  exact (getAddrDelay_map_addr_perm l tD qD oD off).mem_iff.1 hm

theorem delayLoop_zero_delays (hq ht : Bool) (tsi : Nat) :
    ∀ (l : List Multiaddr) (i : Nat),
      (delayLoop 0 0 0 0 hq ht tsi i 0 0 l).map (·.delay) = List.replicate l.length 0
  | [], _ => rfl
  | a :: rest, i => by
    unfold delayLoop
    split
    · simp only [List.map_cons, List.length_cons, List.replicate_succ, List.cons.injEq]
      refine ⟨by split <;> (try split) <;> (try split) <;> simp, ?_⟩
      have h2 : (if i = 1 then 0 else if i > 1 then (if hq then 2 * 0 else 0) else 0) = 0 := by
        split <;> (try split) <;> (try split) <;> simp
      rw [h2]
      have h3 : (0 : Nat) + 0 = 0 := rfl
      rw [h3]
      exact delayLoop_zero_delays hq ht tsi rest (i + 1)
    · split
      · simp only [List.map_cons, List.length_cons, List.replicate_succ, List.cons.injEq]
        refine ⟨by split <;> (try split) <;> (try split) <;> simp, ?_⟩
        have h2 : ((if i = tsi + 1 then 0 else if i > tsi + 1 then (if ht then 2 * 0 else 0)
            else 0) : Nat) + 0 = 0 := by
          split <;> (try split) <;> (try split) <;> simp
        rw [h2]
        exact delayLoop_zero_delays hq ht tsi rest (i + 1)
      · simp only [List.map_cons, List.length_cons, List.replicate_succ, List.cons.injEq]
        exact ⟨trivial, delayLoop_zero_delays hq ht tsi rest (i + 1)⟩

/-! ## Theorems for the address-ranker claims -/

/-- C7: `NoDelayDialRanker` returns an (address, delay) pair for every input
address with every delay equal to 0, and the multiset of returned addresses
equals the multiset of input addresses regardless of input order. -/
theorem noDelayDialRanker_all_zero_and_content (addrs : List Multiaddr) :
    (NoDelayDialRanker addrs).map (·.delay) = List.replicate addrs.length 0
    ∧ ((NoDelayDialRanker addrs).map (·.addr)).Perm addrs := by
  constructor
  · unfold NoDelayDialRanker getAddrDelay
    split
    · rename_i he
      simp [List.isEmpty_iff.1 he]
    · rw [delayLoop_zero_delays]
      congr 1
      exact (((reorderTCP_perm _ _).trans (reorderQUIC_perm _)).trans
        (List.mergeSort_perm addrs _)).length_eq
  · exact getAddrDelay_map_addr_perm addrs 0 0 0 0

/-- C6 counterexample: an address whose protocol stack is neither a
recognized UDP-based nor TCP-based transport (an onion3 address) that is the
only candidate in the input is NOT assigned delay 0 — `DefaultDialRanker`
assigns it `PublicOtherDelay` (1s), exactly as the repository's own test
`TestDelayRankerOtherTransportDelay` ("only-non-ip-addr") expects. -/
theorem defaultDialRanker_single_other_not_zero :
    DefaultDialRanker [[⟨P_ONION3, 1234⟩]]
      = [⟨[⟨P_ONION3, 1234⟩], PublicOtherDelay⟩]
    ∧ PublicOtherDelay ≠ 0 := by
  exact ⟨rfl, by decide⟩

/-- C6 (amended): every output entry of `DefaultDialRanker` whose address is
neither a relay address, nor a private address, nor contains an ip4/ip6
component, is assigned a delay equal to the delay of the last entry of the
previously ranked groups (0 when there is none) plus the fixed
`PublicOtherDelay` offset — with no exception for a singleton input. -/
theorem defaultDialRanker_other_delay (addrs : List Multiaddr) (e : AddrDelay)
    (he : e ∈ DefaultDialRanker addrs)
    (hr : isRelayAddr e.addr = false)
    (hp : IsPrivateAddr e.addr = false)
    (hip : (isProtocolAddr e.addr P_IP4 || isProtocolAddr e.addr P_IP6) = false) :
    e.delay = lastRankedDelay addrs + PublicOtherDelay := by
  rcases List.mem_append.1 he with h | h
  · exfalso
    unfold rankedGroups at h
    rcases List.mem_append.1 h with h' | h'
    · rcases List.mem_append.1 h' with h'' | h''
      · have := filterAddrs_fst_prop (mem_getAddrDelay_addr h'')
        rw [hp] at this
        exact Bool.false_ne_true this
      · have := filterAddrs_fst_prop (mem_getAddrDelay_addr h'')
        rw [hip] at this
        exact Bool.false_ne_true this
    · have := filterAddrs_fst_prop (mem_getAddrDelay_addr h')
      rw [hr] at this
      exact Bool.false_ne_true this
  · rcases List.mem_map.1 h with ⟨a, _, rfl⟩
    rfl

/-- Witness for the amended C6 theorem at a concrete input: the lone onion3
address is in the output with delay `lastRankedDelay + PublicOtherDelay`. -/
theorem defaultDialRanker_other_delay_witness :
    (⟨[⟨P_ONION3, 1234⟩], PublicOtherDelay⟩ : AddrDelay).delay
      = lastRankedDelay [[⟨P_ONION3, 1234⟩]] + PublicOtherDelay :=
  defaultDialRanker_other_delay [[⟨P_ONION3, 1234⟩]]
    ⟨[⟨P_ONION3, 1234⟩], PublicOtherDelay⟩ (by decide) (by decide) (by decide) (by decide)


/-! ## Happy-eyeballs ranking of one public IPv6 + one public IPv4 QUIC address -/

theorem mergeSort_pair {α : Type} (le : α → α → Bool) (a b : α) :
    [a, b].mergeSort le = if le a b then [a, b] else [b, a] := by
  simp [List.mergeSort, List.splitInTwo, List.splitAt, List.splitAt.go, List.merge]

/-- A public-family IPv6 QUIC-v1 address `/ip6/<ip>/udp/<p>/quic-v1`. -/
def quicV6Addr (ip p : Nat) : Multiaddr := [⟨P_IP6, ip⟩, ⟨P_UDP, p⟩, ⟨P_QUIC_V1, 0⟩]

/-- A public-family IPv4 QUIC-v1 address `/ip4/<ip>/udp/<p>/quic-v1`. -/
def quicV4Addr (ip p : Nat) : Multiaddr := [⟨P_IP4, ip⟩, ⟨P_UDP, p⟩, ⟨P_QUIC_V1, 0⟩]

theorem score_quicV6 (ip p : Nat) : score (quicV6Addr ip p) = p := by
  simp [score, quicV6Addr, ValueForProtocol, isProtocolAddr, List.find?, List.any,
    P_IP4, P_IP6, P_UDP, P_TCP, P_QUIC, P_QUIC_V1, P_WEBTRANSPORT, P_WEBRTC_DIRECT]

theorem score_quicV4 (ip p : Nat) : score (quicV4Addr ip p) = (1 <<< 18) + p := by
  simp [score, quicV4Addr, ValueForProtocol, isProtocolAddr, List.find?, List.any,
    P_IP4, P_IP6, P_UDP, P_TCP, P_QUIC, P_QUIC_V1, P_WEBTRANSPORT, P_WEBRTC_DIRECT]

theorem getAddrDelay_quicPair (ip6v ip4v p6 p4 : Nat) (h6 : p6 < 65536) :
    getAddrDelay [quicV6Addr ip6v p6, quicV4Addr ip4v p4]
        PublicTCPDelay PublicQUICDelay PublicOtherDelay 0
      = [⟨quicV6Addr ip6v p6, 0⟩, ⟨quicV4Addr ip4v p4, PublicQUICDelay⟩] := by
  have hle : (decide (score (quicV6Addr ip6v p6) ≤ score (quicV4Addr ip4v p4))) = true := by
    rw [decide_eq_true_eq, score_quicV6, score_quicV4]
    omega
  have hsorted : List.mergeSort [quicV6Addr ip6v p6, quicV4Addr ip4v p4]
      (fun x y => decide (score x ≤ score y))
      = [quicV6Addr ip6v p6, quicV4Addr ip4v p4] := by
    rw [mergeSort_pair]
    rw [if_pos hle]
  unfold getAddrDelay
  rw [if_neg (by simp)]
  rw [hsorted]
  simp only [reorderQUIC, reorderTCP, moveTo, findFrom, delayLoop, isQUICAddr,
    isProtocolAddr, quicV6Addr, quicV4Addr, P_IP4, P_IP6, P_UDP, P_TCP, P_QUIC, P_QUIC_V1,
    List.head?, List.any, List.drop, List.findIdx?, List.getD, List.length, Option.map,
    Option.getD]
  norm_num

theorem getAddrDelay_quicPairRev (ip6v ip4v p6 p4 : Nat) (h6 : p6 < 65536) :
    getAddrDelay [quicV4Addr ip4v p4, quicV6Addr ip6v p6]
        PublicTCPDelay PublicQUICDelay PublicOtherDelay 0
      = [⟨quicV6Addr ip6v p6, 0⟩, ⟨quicV4Addr ip4v p4, PublicQUICDelay⟩] := by
  have hle : (decide (score (quicV4Addr ip4v p4) ≤ score (quicV6Addr ip6v p6))) = false := by
    rw [decide_eq_false_iff_not, score_quicV6, score_quicV4]
    omega
  have hsorted : List.mergeSort [quicV4Addr ip4v p4, quicV6Addr ip6v p6]
      (fun x y => decide (score x ≤ score y))
      = [quicV6Addr ip6v p6, quicV4Addr ip4v p4] := by
    rw [mergeSort_pair]
    rw [if_neg (by simp [hle])]
  unfold getAddrDelay
  rw [if_neg (by simp)]
  rw [hsorted]
  simp only [reorderQUIC, reorderTCP, moveTo, findFrom, delayLoop, isQUICAddr,
    isProtocolAddr, quicV6Addr, quicV4Addr, P_IP4, P_IP6, P_UDP, P_TCP, P_QUIC, P_QUIC_V1,
    List.head?, List.any, List.drop, List.findIdx?, List.getD, List.length, Option.map,
    Option.getD]
  norm_num

/-- C5: on an input holding exactly one public IPv6 and one public IPv4
address of the fastest transport (QUIC), in either order, `DefaultDialRanker`
assigns the IPv6 address delay 0 and the IPv4 address exactly
`PublicQUICDelay` (250ms). -/
theorem defaultDialRanker_happy_eyeballs (ip6v ip4v p6 p4 : Nat) (h6 : p6 < 65536)
    (hpriv6 : isPrivateIPv6 ip6v = false) (hpriv4 : isPrivateIPv4 ip4v = false)
    (l : List Multiaddr)
    (hl : l = [quicV6Addr ip6v p6, quicV4Addr ip4v p4]
        ∨ l = [quicV4Addr ip4v p4, quicV6Addr ip6v p6]) :
    DefaultDialRanker l
      = [⟨quicV6Addr ip6v p6, 0⟩, ⟨quicV4Addr ip4v p4, PublicQUICDelay⟩] := by
  rcases hl with rfl | rfl
  · have f2 : filterAddrs [quicV6Addr ip6v p6, quicV4Addr ip4v p4] IsPrivateAddr
        = ([], [quicV6Addr ip6v p6, quicV4Addr ip4v p4]) := by
      simp [filterAddrs, filterLoop, IsPrivateAddr, quicV6Addr, quicV4Addr,
        P_IP4, P_IP6, hpriv6, hpriv4]
    have hrg : rankedGroups [quicV6Addr ip6v p6, quicV4Addr ip4v p4]
        = [⟨quicV6Addr ip6v p6, 0⟩, ⟨quicV4Addr ip4v p4, PublicQUICDelay⟩] := by
      unfold rankedGroups
      rw [show filterAddrs [quicV6Addr ip6v p6, quicV4Addr ip4v p4] isRelayAddr
        = ([], [quicV6Addr ip6v p6, quicV4Addr ip4v p4]) from rfl]
      dsimp only
      rw [f2]
      dsimp only
      rw [show filterAddrs [quicV6Addr ip6v p6, quicV4Addr ip4v p4]
          (fun a => isProtocolAddr a P_IP4 || isProtocolAddr a P_IP6)
        = ([quicV6Addr ip6v p6, quicV4Addr ip4v p4], []) from rfl]
      simp only [List.length_cons, List.length_nil]
      rw [getAddrDelay_quicPair ip6v ip4v p6 p4 h6]
      rfl
    have hor : otherRest [quicV6Addr ip6v p6, quicV4Addr ip4v p4] = [] := by
      unfold otherRest
      rw [show filterAddrs [quicV6Addr ip6v p6, quicV4Addr ip4v p4] isRelayAddr
        = ([], [quicV6Addr ip6v p6, quicV4Addr ip4v p4]) from rfl]
      dsimp only
      rw [f2]
      rfl
    unfold DefaultDialRanker
    rw [hrg, hor]
    rfl
  · have f2 : filterAddrs [quicV4Addr ip4v p4, quicV6Addr ip6v p6] IsPrivateAddr
        = ([], [quicV4Addr ip4v p4, quicV6Addr ip6v p6]) := by
      simp [filterAddrs, filterLoop, IsPrivateAddr, quicV6Addr, quicV4Addr,
        P_IP4, P_IP6, hpriv6, hpriv4]
    have hrg : rankedGroups [quicV4Addr ip4v p4, quicV6Addr ip6v p6]
        = [⟨quicV6Addr ip6v p6, 0⟩, ⟨quicV4Addr ip4v p4, PublicQUICDelay⟩] := by
      unfold rankedGroups
      rw [show filterAddrs [quicV4Addr ip4v p4, quicV6Addr ip6v p6] isRelayAddr
        = ([], [quicV4Addr ip4v p4, quicV6Addr ip6v p6]) from rfl]
      dsimp only
      rw [f2]
      dsimp only
      rw [show filterAddrs [quicV4Addr ip4v p4, quicV6Addr ip6v p6]
          (fun a => isProtocolAddr a P_IP4 || isProtocolAddr a P_IP6)
        = ([quicV4Addr ip4v p4, quicV6Addr ip6v p6], []) from rfl]
      simp only [List.length_cons, List.length_nil]
      rw [getAddrDelay_quicPairRev ip6v ip4v p6 p4 h6]
      rfl
    have hor : otherRest [quicV4Addr ip4v p4, quicV6Addr ip6v p6] = [] := by
      unfold otherRest
      rw [show filterAddrs [quicV4Addr ip4v p4, quicV6Addr ip6v p6] isRelayAddr
        = ([], [quicV4Addr ip4v p4, quicV6Addr ip6v p6]) from rfl]
      dsimp only
      rw [f2]
      rfl
    unfold DefaultDialRanker
    rw [hrg, hor]
    rfl

/-- Witness for the C5 theorem at `/ip6/1::2/udp/1/quic-v1` and
`/ip4/1.2.3.4/udp/1/quic-v1`. -/
theorem defaultDialRanker_happy_eyeballs_witness :
    DefaultDialRanker [quicV6Addr ((1 <<< 112) + 2) 1, quicV4Addr 16909060 1]
      = [⟨quicV6Addr ((1 <<< 112) + 2) 1, 0⟩, ⟨quicV4Addr 16909060 1, PublicQUICDelay⟩] :=
  defaultDialRanker_happy_eyeballs ((1 <<< 112) + 2) 16909060 1 1 (by decide)
    (by decide) (by decide) _ (Or.inl rfl)

/-! ## Stream lifecycle (`Stream.closeAndRemoveStream` /
`Stream.completeAcceptStreamGoroutine`, with `Conn.removeStream`)

Both methods run under the stream's `closeMx`, so an arbitrary interleaving
of `Close`/`Reset`/`ResetWithError` calls and the accept-goroutine
completion is a sequence of atomic operations on the stream state.
`releases` counts the `Conn.removeStream` calls (removal from the
connection's live-stream set followed by `scope.Done()`). -/

inductive StreamOp where
  | close
  | completeAccept
deriving DecidableEq, Repr

structure StreamState where
  isClosed : Bool
  acceptStreamGoroutineCompleted : Bool
  releases : Nat
deriving DecidableEq, Repr

/-- Source: `Stream.closeAndRemoveStream`: invoked by `Close`, `Reset` and
`ResetWithError`; idempotent via `isClosed`; calls `Conn.removeStream` only
when the accept goroutine has already completed. -/
def closeAndRemoveStream (s : StreamState) : StreamState :=
  if s.isClosed then s
  else
    { isClosed := true
      acceptStreamGoroutineCompleted := s.acceptStreamGoroutineCompleted
      releases := s.releases + (if s.acceptStreamGoroutineCompleted then 1 else 0) }

/-- Source: `Stream.completeAcceptStreamGoroutine`: idempotent via the flag; calls
`Conn.removeStream` only when the stream is already closed. -/
def completeAcceptStreamGoroutine (s : StreamState) : StreamState :=
  if s.acceptStreamGoroutineCompleted then s
  else
    { s with
      acceptStreamGoroutineCompleted := true
      releases := s.releases + (if s.isClosed then 1 else 0) }

/-- Initial stream state from `Conn.addStream`:
`acceptStreamGoroutineCompleted: dir != network.DirInbound`. -/
def streamInit (inbound : Bool) : StreamState :=
  ⟨false, !inbound, 0⟩

def streamStep (s : StreamState) : StreamOp → StreamState
  | .close => closeAndRemoveStream s
  | .completeAccept => completeAcceptStreamGoroutine s

def runStream (s : StreamState) : List StreamOp → StreamState
  | [] => s
  | op :: ops => runStream (streamStep s op) ops

/-- The release-count invariant of the stream state machine. -/
def streamInv (s : StreamState) : Prop :=
  s.releases = if s.isClosed && s.acceptStreamGoroutineCompleted then 1 else 0

theorem streamStep_inv {s : StreamState} (h : streamInv s) (op : StreamOp) :
    streamInv (streamStep s op) := by
  obtain ⟨ic, ad, r⟩ := s
  unfold streamInv at h ⊢
  cases op <;> cases ic <;> cases ad <;>
    simp_all [streamStep, closeAndRemoveStream, completeAcceptStreamGoroutine]

theorem runStream_inv {s : StreamState} (h : streamInv s) :
    ∀ ops : List StreamOp, streamInv (runStream s ops)
  | [] => h
  | op :: ops => runStream_inv (streamStep_inv h op) ops

/-- C1: under every interleaving of `Close`/`Reset`/`ResetWithError` and
`completeAcceptStreamGoroutine` calls, the stream's resource scope is
released (`Conn.removeStream`: removal from the live-stream set plus
`scope.Done()`) exactly once as soon as both the stream is closed and the
accept-processing-complete flag (true at creation for outbound streams) is
set, and zero times before both conditions hold. -/
theorem streamScope_released_exactly_once (inbound : Bool) (ops : List StreamOp) :
    (runStream (streamInit inbound) ops).releases
      = if (runStream (streamInit inbound) ops).isClosed
          && (runStream (streamInit inbound) ops).acceptStreamGoroutineCompleted
        then 1 else 0 :=
  runStream_inv (by cases inbound <;> simp [streamInit, streamInv]) ops

/-! ## Dial synchronization (`p2p/net/swarm/dial_sync.go`)

`dialSync.getActiveDial` and the completion block of `dialSync.Dial` both
run under `ds.mutex`, so a history of concurrent `Dial` calls for one peer
identity is a sequence of atomic `get` (reference) and `put r` (completion
with result error `r`, `none` meaning a successful connection) events.
The registry is a map keyed by peer identity, so the state below models the
single possible entry for one fixed identity; `gen` numbers the record
generations so that "attach to the same record" is expressible. -/

inductive DialEvent where
  | get
  | put (res : Option Nat)
deriving DecidableEq, Repr

/-- The cause passed to `cancelCause` on teardown: the last result's error,
or `errConcurrentDialSuccessful` when the last result had no error. -/
inductive DialCause where
  | errConcurrentDialSuccessful
  | dialErr (code : Nat)
deriving DecidableEq, Repr

/-- Source: `if err == nil { ad.cancelCause(errConcurrentDialSuccessful) } else
{ ad.cancelCause(err) }`. -/
def dialCause : Option Nat → DialCause
  | none => .errConcurrentDialSuccessful
  | some e => .dialErr e

/-- The registry entry for one peer identity.  `present` is map membership;
`ctxCause` the cause the record's shared context was canceled with (`none`
while live: `getActiveDial` derives the context from
`context.Background()`); `reqchClosed` whether `close(ad.reqch)` ran. -/
structure ActiveDialState where
  present : Bool
  refCnt : Nat
  gen : Nat
  ctxCause : Option DialCause
  reqchClosed : Bool
deriving DecidableEq, Repr

def activeDialInit : ActiveDialState :=
  ⟨false, 0, 0, none, false⟩

/-- One serialized critical section: `get` is the body of `getActiveDial`
(lazily create with a fresh background-derived context, then `refCnt++`);
`put r` is the completion block of `Dial` (`refCnt--`; at zero: cancel the
shared context with the computed cause, close the request channel, delete
the map entry). -/
def adStep (s : ActiveDialState) : DialEvent → ActiveDialState
  | .get =>
    if s.present then { s with refCnt := s.refCnt + 1 }
    else ⟨true, 1, s.gen + 1, none, false⟩
  | .put r =>
    if s.refCnt - 1 = 0 then ⟨false, 0, s.gen, some (dialCause r), true⟩
    else { s with refCnt := s.refCnt - 1 }

def adRun (s : ActiveDialState) : List DialEvent → ActiveDialState
  | [] => s
  | ev :: evs => adRun (adStep s ev) evs

/-- A history is valid when every completion matches an earlier reference:
in the program every `put` is the tail of a `Dial` whose `get` already ran. -/
def adValid (s : ActiveDialState) : List DialEvent → Bool
  | [] => true
  | .get :: evs => adValid (adStep s .get) evs
  | .put r :: evs => decide (0 < s.refCnt) && adValid (adStep s (.put r)) evs

/-- The record invariant: the entry exists exactly while callers hold
references, and while it exists its shared context is uncanceled and its
request channel open. -/
def adInv (s : ActiveDialState) : Prop :=
  (s.present = true ↔ 0 < s.refCnt)
    ∧ (s.present = true → s.ctxCause = none ∧ s.reqchClosed = false)

theorem adStep_inv {s : ActiveDialState} (h : adInv s) :
    ∀ ev : DialEvent, (ev matches .put _ → 0 < s.refCnt) → adInv (adStep s ev)
  | .get, _ => by
    obtain ⟨h1, h2⟩ := h
    by_cases hp : s.present = true
    · have h3 := h2 hp
      constructor
      · simp [adStep, hp]
      · intro _
        simpa [adStep, hp] using h3
    · simp [adStep, hp, adInv]
  | .put r, hr => by
    obtain ⟨h1, h2⟩ := h
    have hcnt : 0 < s.refCnt := hr rfl
    by_cases hz : s.refCnt - 1 = 0
    · simp [adStep, hz, adInv]
    · have hp : s.present = true := h1.2 hcnt
      have h3 := h2 hp
      constructor
      · simp only [adStep, if_neg hz]
        simp [hp]
        omega
      · intro _
        simpa [adStep, hz] using h3

theorem adRun_inv {s : ActiveDialState} (h : adInv s) :
    ∀ evs : List DialEvent, adValid s evs = true → adInv (adRun s evs)
  | [] => fun _ => h
  | .get :: evs => fun hv =>
    adRun_inv (adStep_inv h .get (by intro hm; cases hm)) evs (by simpa [adValid] using hv)
  | .put r :: evs => fun hv => by
    have hv' := hv
    simp only [adValid, Bool.and_eq_true, decide_eq_true_eq] at hv'
    exact adRun_inv (adStep_inv h (.put r) (fun _ => hv'.1)) evs hv'.2

/-- C2: for a fixed remote peer identity, after any valid serialized history
of `getActiveDial` references and `Dial` completions: the registry holds a
record exactly while callers hold references (at most one record — the
single map slot — created lazily); while it exists its shared context is
uncanceled and its request channel open; a further concurrent `Dial`
attaches to the same record (same generation) and increments its reference
count; and a completion that returns the reference count to zero cancels
the context with cause the last result's error (or the sentinel
`errConcurrentDialSuccessful` when the last result had no error), closes
the request channel, and removes the record. -/
theorem dialSync_registry_lifecycle (evs : List DialEvent)
    (hv : adValid activeDialInit evs = true) :
    ((adRun activeDialInit evs).present = true ↔ 0 < (adRun activeDialInit evs).refCnt)
    ∧ ((adRun activeDialInit evs).present = true →
        (adRun activeDialInit evs).ctxCause = none
        ∧ (adRun activeDialInit evs).reqchClosed = false)
    ∧ ((adRun activeDialInit evs).present = true →
        adStep (adRun activeDialInit evs) .get
          = { adRun activeDialInit evs with
              refCnt := (adRun activeDialInit evs).refCnt + 1 })
    ∧ (∀ r : Option Nat, (adRun activeDialInit evs).refCnt = 1 →
        adStep (adRun activeDialInit evs) (.put r)
          = ⟨false, 0, (adRun activeDialInit evs).gen, some (dialCause r), true⟩) := by
  have hinv := adRun_inv (show adInv activeDialInit by simp [adInv, activeDialInit]) evs hv
  refine ⟨hinv.1, hinv.2, ?_, ?_⟩
  · intro hp
    simp [adStep, hp]
  · intro r hc
    simp [adStep, hc]

/-- Witness for the C2 theorem: two concurrent callers, the first completing
with an error, the second succeeding. -/
theorem dialSync_registry_lifecycle_witness :
    ((adRun activeDialInit [.get, .get, .put (some 7)]).present = true
      ↔ 0 < (adRun activeDialInit [.get, .get, .put (some 7)]).refCnt)
    ∧ ((adRun activeDialInit [.get, .get, .put (some 7)]).present = true →
        (adRun activeDialInit [.get, .get, .put (some 7)]).ctxCause = none
        ∧ (adRun activeDialInit [.get, .get, .put (some 7)]).reqchClosed = false)
    ∧ ((adRun activeDialInit [.get, .get, .put (some 7)]).present = true →
        adStep (adRun activeDialInit [.get, .get, .put (some 7)]) .get
          = { adRun activeDialInit [.get, .get, .put (some 7)] with
              refCnt := (adRun activeDialInit [.get, .get, .put (some 7)]).refCnt + 1 })
    ∧ (∀ r : Option Nat, (adRun activeDialInit [.get, .get, .put (some 7)]).refCnt = 1 →
        adStep (adRun activeDialInit [.get, .get, .put (some 7)]) (.put r)
          = ⟨false, 0, (adRun activeDialInit [.get, .get, .put (some 7)]).gen,
              some (dialCause r), true⟩) :=
  dialSync_registry_lifecycle [.get, .get, .put (some 7)] (by decide)

/-! ## Caller contexts and `activeDial.dial`

Model of the Go context values used by `dial_sync.go`: a context carries a
cancellation flag and the two swarm-specific values (force-direct and
simultaneous-connect).  The `network.With*` helpers are `WithValue`-style
wrappers: they never change the cancellation of the context they derive
from. -/

structure GoCtx where
  cancelled : Bool
  forceDirect : Bool
  fdReason : Nat
  simConnect : Bool
  scClient : Bool
  scReason : Nat
deriving DecidableEq, Repr

/-- Source: `network.GetForceDirectDial`. -/
def GetForceDirectDial (c : GoCtx) : Bool × Nat := (c.forceDirect, c.fdReason)

/-- Source: `network.WithForceDirectDial`. -/
def WithForceDirectDial (c : GoCtx) (reason : Nat) : GoCtx :=
  { c with forceDirect := true, fdReason := reason }

/-- Source: `network.GetSimultaneousConnect`. -/
def GetSimultaneousConnect (c : GoCtx) : Bool × Bool × Nat :=
  (c.simConnect, c.scClient, c.scReason)

/-- Source: `network.WithSimultaneousConnect`. -/
def WithSimultaneousConnect (c : GoCtx) (isClient : Bool) (reason : Nat) : GoCtx :=
  { c with simConnect := true, scClient := isClient, scReason := reason }

/-- The context created for a new record in `getActiveDial`:
`context.WithCancelCause(context.Background())` — deliberately not derived
from any caller's context. -/
def backgroundCancelCtx : GoCtx :=
  ⟨false, false, 0, false, false, 0⟩

/-- The context-derivation prefix of `activeDial.dial`: start from the
record's shared context and copy only the force-direct and
simultaneous-connect values from the calling context. -/
def deriveDialCtx (adCtx callerCtx : GoCtx) : GoCtx :=
  let d := adCtx
  let d :=
    if (GetForceDirectDial callerCtx).1 then
      WithForceDirectDial d (GetForceDirectDial callerCtx).2
    else d
  if (GetSimultaneousConnect callerCtx).1 then
    WithSimultaneousConnect d (GetSimultaneousConnect callerCtx).2.1
      (GetSimultaneousConnect callerCtx).2.2
  else d

inductive DialOutcome where
  | ctxError
  | response (conn : Option Nat) (err : Option Nat)
deriving DecidableEq, Repr

/-- The two `select` blocks of `activeDial.dial`: a caller whose own context
is cancelled while its response has not yet arrived returns `ctx.Err()`;
otherwise it returns the worker's response. -/
def adDialOutcome (callerCtx : GoCtx) (respArrived : Bool) (conn err : Option Nat) :
    DialOutcome :=
  if callerCtx.cancelled && !respArrived then .ctxError
  else .response conn err

/-- C3: canceling one caller's context among concurrent `dialSync.Dial`
calls does not cancel the shared dial for the remaining callers: the
request context handed to the worker keeps the shared (background-derived)
context's cancellation state no matter what the caller's context is — the
caller's context contributes only the force-direct/simultaneous-connect
values; a completion that leaves other references outstanding only
decrements the count (record, shared context and request channel
untouched); the cancelled caller itself returns its own context's error,
while any caller whose context is not cancelled receives the worker's
response (in particular the successful connection). -/
theorem dialSync_caller_cancellation_isolated :
    (∀ adCtx callerCtx : GoCtx, (deriveDialCtx adCtx callerCtx).cancelled = adCtx.cancelled)
    ∧ (∀ callerCtx : GoCtx, (deriveDialCtx backgroundCancelCtx callerCtx).cancelled = false)
    ∧ (∀ (s : ActiveDialState) (r : Option Nat), 2 ≤ s.refCnt →
        adStep s (.put r) = { s with refCnt := s.refCnt - 1 })
    ∧ (∀ (callerCtx : GoCtx) (conn err : Option Nat), callerCtx.cancelled = true →
        adDialOutcome callerCtx false conn err = .ctxError)
    ∧ (∀ (callerCtx : GoCtx) (respArrived : Bool) (conn err : Option Nat),
        callerCtx.cancelled = false →
        adDialOutcome callerCtx respArrived conn err = .response conn err) := by
  refine ⟨?_, ?_, ?_, ?_, ?_⟩
  · intro adCtx callerCtx
    unfold deriveDialCtx WithForceDirectDial WithSimultaneousConnect
    dsimp only
    split <;> split <;> rfl
  · intro callerCtx
    unfold deriveDialCtx WithForceDirectDial WithSimultaneousConnect backgroundCancelCtx
    dsimp only
    split <;> split <;> rfl
  · intro s r h
    have hnz : ¬(s.refCnt - 1 = 0) := by omega
    simp [adStep, hnz]
  · intro callerCtx conn err h
    simp [adDialOutcome, h]
  · intro callerCtx respArrived conn err h
    simp [adDialOutcome, h]

/-- Witness for the C3 theorem: a cancelled caller carrying both flags, a
record with two outstanding references, and a surviving caller receiving
the connection. -/
theorem dialSync_caller_cancellation_isolated_witness :
    (deriveDialCtx backgroundCancelCtx ⟨true, true, 3, true, false, 4⟩).cancelled = false
    ∧ adStep ⟨true, 2, 1, none, false⟩ (.put (some 5)) = ⟨true, 1, 1, none, false⟩
    ∧ adDialOutcome ⟨true, false, 0, false, false, 0⟩ false none (some 9) = .ctxError
    ∧ adDialOutcome ⟨false, false, 0, false, false, 0⟩ true (some 3) none
        = .response (some 3) none := by
  refine ⟨dialSync_caller_cancellation_isolated.2.1 _, ?_, ?_, ?_⟩
  · have h := dialSync_caller_cancellation_isolated.2.2.1 ⟨true, 2, 1, none, false⟩
      (some 5) (by decide)
    simpa using h
  · exact dialSync_caller_cancellation_isolated.2.2.2.1 _ none (some 9) rfl
  · exact dialSync_caller_cancellation_isolated.2.2.2.2 _ true (some 3) none rfl

/-! ## Noise handshake payload validation
(`secureSession.handleRemoteHandshakePayload`, `p2p/security/noise`)

Bytes are `List Nat`; peer identities and public keys are opaque numbers.
The crypto collaborators (`proto.Unmarshal`, `crypto.UnmarshalPublicKey`,
`peer.IDFromPublicKey`, `PubKey.Verify`) are abstract capability
parameters, exactly as the upgrade core treats them. -/

/-- The `payloadSigPrefix` constant, as UTF-8 bytes. -/
def payloadSigPfx : List Nat :=
  "noise-libp2p-static-key:".toUTF8.toList.map (fun b => b.toNat)

/-- The decoded `pb.NoiseHandshakePayload`. -/
structure NoiseHandshakePayloadM where
  identityKey : List Nat
  identitySig : List Nat
  extensions : Option Nat
deriving DecidableEq, Repr

inductive HandshakeErr where
  | unmarshalPayloadErr
  | unmarshalKeyErr
  | idFromKeyErr
  | peerIDMismatch (expected actual : Nat)
  | verifyErr
  | sigInvalid
deriving DecidableEq, Repr

/-- The `secureSession` fields read and written by
`handleRemoteHandshakePayload`. -/
structure SecureSessionState where
  checkPeerID : Bool
  remoteID : Nat
  remoteKey : Option Nat
deriving DecidableEq, Repr

/-- Source: `secureSession.handleRemoteHandshakePayload`: unmarshal the payload,
unpack the remote public key, derive the peer identity, check it against
the expected identity when checking is enabled, verify the payload
signature over the prefixed static key, and only then record the remote
identity and key and return the extensions. -/
def handleRemoteHandshakePayload
    (unmarshalPayload : List Nat → Option NoiseHandshakePayloadM)
    (unmarshalPublicKey : List Nat → Option Nat)
    (idFromPublicKey : Nat → Option Nat)
    (verify : Nat → List Nat → List Nat → Option Bool)
    (s : SecureSessionState) (payload remoteStatic : List Nat) :
    Except HandshakeErr (SecureSessionState × Option Nat) :=
  match unmarshalPayload payload with
  | none => .error .unmarshalPayloadErr
  | some nhp =>
    match unmarshalPublicKey nhp.identityKey with
    | none => .error .unmarshalKeyErr
    | some remotePubKey =>
      match idFromPublicKey remotePubKey with
      | none => .error .idFromKeyErr
      | some id =>
        if s.checkPeerID && s.remoteID != id then
          .error (.peerIDMismatch s.remoteID id)
        else
          match verify remotePubKey (payloadSigPfx ++ remoteStatic) nhp.identitySig with
          | none => .error .verifyErr
          | some false => .error .sigInvalid
          | some true =>
            .ok ({ s with remoteID := id, remoteKey := some remotePubKey }, nhp.extensions)

/-- C4: with identity checking enabled, when the cryptographically derived
remote identity differs from the expected one, the handshake fails with a
`PeerIDMismatch` error carrying both the expected and the actual identity,
and no secured session (no `.ok` result, no session-state update) is
produced. -/
theorem handshake_peerIDMismatch
    (unmarshalPayload : List Nat → Option NoiseHandshakePayloadM)
    (unmarshalPublicKey : List Nat → Option Nat)
    (idFromPublicKey : Nat → Option Nat)
    (verify : Nat → List Nat → List Nat → Option Bool)
    (s : SecureSessionState) (payload remoteStatic : List Nat)
    (nhp : NoiseHandshakePayloadM) (k id : Nat)
    (hcheck : s.checkPeerID = true)
    (h1 : unmarshalPayload payload = some nhp)
    (h2 : unmarshalPublicKey nhp.identityKey = some k)
    (h3 : idFromPublicKey k = some id)
    (hne : s.remoteID ≠ id) :
    handleRemoteHandshakePayload unmarshalPayload unmarshalPublicKey idFromPublicKey
        verify s payload remoteStatic
      = .error (.peerIDMismatch s.remoteID id)
    ∧ ∀ out, handleRemoteHandshakePayload unmarshalPayload unmarshalPublicKey
        idFromPublicKey verify s payload remoteStatic ≠ .ok out := by
  have hmain : handleRemoteHandshakePayload unmarshalPayload unmarshalPublicKey
      idFromPublicKey verify s payload remoteStatic
      = .error (.peerIDMismatch s.remoteID id) := by
    simp [handleRemoteHandshakePayload, h1, h2, h3, hcheck, hne]
  exact ⟨hmain, fun out h => by rw [hmain] at h; cases h⟩

/-- Witness for the C4 theorem with concrete collaborator functions: the
expected identity 42, the derived identity 6. -/
theorem handshake_peerIDMismatch_witness :
    handleRemoteHandshakePayload (fun _ => some ⟨[1], [2], none⟩) (fun _ => some 5)
        (fun k => some (k + 1)) (fun _ _ _ => some true) ⟨true, 42, none⟩ [0] [9]
      = .error (.peerIDMismatch 42 6)
    ∧ ∀ out, handleRemoteHandshakePayload (fun _ => some ⟨[1], [2], none⟩)
        (fun _ => some 5) (fun k => some (k + 1)) (fun _ _ _ => some true)
        ⟨true, 42, none⟩ [0] [9] ≠ .ok out :=
  handshake_peerIDMismatch (fun _ => some ⟨[1], [2], none⟩) (fun _ => some 5)
    (fun k => some (k + 1)) (fun _ _ _ => some true) ⟨true, 42, none⟩ [0] [9]
    ⟨[1], [2], none⟩ 5 6 rfl rfl rfl rfl (by decide)

/-! ## Upgrader listener `Accept` (`p2p/net/upgrader/listener.go`)

`Accept` ranges over the (already closed, hence drained-in-order) or still
live `incoming` channel; the remaining queued connections are a list.  When
the channel is exhausted, `l.err` is inspected: an underlying
"use of closed network connection" failure is translated to the sentinel
`transport.ErrListenerClosed`. -/

structure QueuedConn where
  isClosed : Bool
  ident : Nat
deriving DecidableEq, Repr

/-- The listener's terminal error `l.err`: whether its message contains
"use of closed network connection", plus an opaque payload. -/
structure ListenerErr where
  closedNetwork : Bool
  code : Nat
deriving DecidableEq, Repr

inductive AcceptResult where
  | conn (c : QueuedConn)
  | errListenerClosed
  | err (e : ListenerErr)
deriving DecidableEq, Repr

/-- Source: `listener.Accept`: skip queued connections that closed while waiting;
once the queue is exhausted, return the terminal error (translated to the
listener-closed sentinel when the cause is a closed socket). -/
def listenerAccept : List QueuedConn → ListenerErr → AcceptResult
  | [], e => if e.closedNetwork then .errListenerClosed else .err e
  | c :: rest, e => if c.isClosed then listenerAccept rest e else .conn c

/-- C10: `Accept` returns the first queued connection that is not already
closed — silently skipping queued connections that became closed while
waiting — and, when every queued connection is closed (or the queue is
empty), returns an error (the sentinel listener-closed error when the
terminal error indicates a closed socket, the terminal error otherwise),
never a closed connection. -/
theorem listenerAccept_never_returns_closed :
    ∀ (queue : List QueuedConn) (lerr : ListenerErr),
      listenerAccept queue lerr
        = match (queue.filter (fun c => !c.isClosed)).head? with
          | some c => .conn c
          | none => if lerr.closedNetwork then .errListenerClosed else .err lerr
  | [], lerr => rfl
  | c :: rest, lerr => by
    by_cases hc : c.isClosed = true
    · simp [listenerAccept, hc, listenerAccept_never_returns_closed rest lerr]
    · simp only [Bool.not_eq_true] at hc
      simp [listenerAccept, hc]

/-! ## Connect / disconnect notification ordering
(`Conn.doClose` in `p2p/net/swarm/swarm_conn.go`)

`doClose` fires the disconnect notification in a goroutine that first
acquires the per-connection `notifyLk`; the connect side (modelled from the
spec: the swarm's `addConn` path, not included in the source snapshot,
acquires `notifyLk` before the connection is exposed, fires `Connected`,
and releases it) holds the same lock around `Connected`.  The two sides are
threads of a transition system; the mutex is modelled as `lockHeld`
(0 free, 1 connect side, 2 disconnect side), and each side's program
counter counts its progress (0 initial, 1 lock acquired, 2 notification
fired, 3 lock released).  Because the connection is exposed only after the
connect side holds the lock, the disconnect goroutine's acquire carries the
premise `1 ≤ pcC`. -/

inductive NotifEvent where
  | acqConnect
  | fireConnected
  | relConnect
  | acqDisconnect
  | fireDisconnected
  | relDisconnect
deriving DecidableEq, Repr

structure NotifState where
  lockHeld : Nat
  pcC : Nat
  pcD : Nat
deriving DecidableEq, Repr

def notifInit : NotifState := ⟨0, 0, 0⟩

def notifEnabled (s : NotifState) : NotifEvent → Bool
  | .acqConnect => s.pcC == 0 && s.lockHeld == 0
  | .fireConnected => s.pcC == 1
  | .relConnect => s.pcC == 2
  | .acqDisconnect => s.pcD == 0 && s.lockHeld == 0 && decide (1 ≤ s.pcC)
  | .fireDisconnected => s.pcD == 1
  | .relDisconnect => s.pcD == 2

def notifStep (s : NotifState) : NotifEvent → NotifState
  | .acqConnect => { s with lockHeld := 1, pcC := 1 }
  | .fireConnected => { s with pcC := 2 }
  | .relConnect => { s with lockHeld := 0, pcC := 3 }
  | .acqDisconnect => { s with lockHeld := 2, pcD := 1 }
  | .fireDisconnected => { s with pcD := 2 }
  | .relDisconnect => { s with lockHeld := 0, pcD := 3 }

def notifValid (s : NotifState) : List NotifEvent → Bool
  | [] => true
  | e :: t => notifEnabled s e && notifValid (notifStep s e) t

def notifRun (s : NotifState) : List NotifEvent → NotifState
  | [] => s
  | e :: t => notifRun (notifStep s e) t

def notifInv (s : NotifState) : Prop :=
  ((s.pcC = 1 ∨ s.pcC = 2) → s.lockHeld = 1)
    ∧ ((s.pcD = 1 ∨ s.pcD = 2) → s.lockHeld = 2)
    ∧ (1 ≤ s.pcD → s.pcC = 3)
    ∧ s.pcC ≤ 3 ∧ s.pcD ≤ 3

theorem notifStep_inv {s : NotifState} (h : notifInv s) (e : NotifEvent)
    (he : notifEnabled s e = true) : notifInv (notifStep s e) := by
  obtain ⟨lk, pc, pd⟩ := s
  unfold notifInv at h ⊢
  cases e
  case acqConnect => simp_all [notifStep, notifEnabled]
  case fireConnected => simp_all [notifStep, notifEnabled]
  case relConnect => simp_all [notifStep, notifEnabled]
  case acqDisconnect =>
    simp only [notifEnabled, Bool.and_eq_true, beq_iff_eq, decide_eq_true_eq] at he
    obtain ⟨⟨hpd, hlk⟩, hpc⟩ := he
    subst hpd hlk
    simp only [notifStep]
    simp at h ⊢
    omega
  case fireDisconnected => simp_all [notifStep, notifEnabled]
  case relDisconnect => simp_all [notifStep, notifEnabled]

theorem notifRun_inv {s : NotifState} (h : notifInv s) :
    ∀ tr : List NotifEvent, notifValid s tr = true → notifInv (notifRun s tr)
  | [] => fun _ => h
  | e :: t => fun hv => by
    simp only [notifValid, Bool.and_eq_true] at hv
    exact notifRun_inv (notifStep_inv h e hv.1) t hv.2

theorem notifValid_take :
    ∀ (tr : List NotifEvent) (s : NotifState) (n : Nat), notifValid s tr = true →
      notifValid s (tr.take n) = true
  | [], s, n => fun _ => by simp [notifValid]
  | e :: t, s, 0 => fun _ => rfl
  | e :: t, s, n + 1 => fun hv => by
    simp only [notifValid, Bool.and_eq_true] at hv
    simp only [List.take_succ_cons, notifValid, Bool.and_eq_true]
    exact ⟨hv.1, notifValid_take t (notifStep s e) n hv.2⟩

theorem notifValid_getD_enabled :
    ∀ (tr : List NotifEvent) (s : NotifState) (j : Nat), notifValid s tr = true →
      j < tr.length →
      notifEnabled (notifRun s (tr.take j)) (tr.getD j .acqConnect) = true
  | [], _, j => fun _ hj => by simp at hj
  | e :: t, s, 0 => fun hv _ => by
    simp only [notifValid, Bool.and_eq_true] at hv
    simpa [notifRun] using hv.1
  | e :: t, s, m + 1 => fun hv hj => by
    simp only [notifValid, Bool.and_eq_true] at hv
    simp only [List.take_succ_cons, List.getD_cons_succ]
    exact notifValid_getD_enabled t (notifStep s e) m hv.2 (by simpa using hj)

theorem pcC_ge_two_mem_fireConnected :
    ∀ (tr : List NotifEvent) (s : NotifState), notifValid s tr = true →
      2 ≤ (notifRun s tr).pcC → 2 ≤ s.pcC ∨ .fireConnected ∈ tr
  | [], s => fun _ h => Or.inl h
  | e :: t, s => fun hv h => by
    simp only [notifValid, Bool.and_eq_true] at hv
    rcases pcC_ge_two_mem_fireConnected t (notifStep s e) hv.2 h with h' | h'
    · cases e with
      | fireConnected => exact Or.inr (by simp)
      | acqConnect => simp [notifStep] at h'
      | relConnect =>
        have := hv.1
        simp only [notifEnabled, beq_iff_eq] at this
        omega
      | acqDisconnect => exact Or.inl (by simpa [notifStep] using h')
      | fireDisconnected => exact Or.inl (by simpa [notifStep] using h')
      | relDisconnect => exact Or.inl (by simpa [notifStep] using h')
    · exact Or.inr (List.mem_cons_of_mem e h')

theorem mem_take_exists_getD :
    ∀ (l : List NotifEvent) (n : Nat) (x : NotifEvent), x ∈ l.take n →
      ∃ i, i < n ∧ i < l.length ∧ l.getD i .acqConnect = x
  | [], n, x => by simp
  | a :: t, 0, x => by simp
  | a :: t, n + 1, x => fun hx => by
    simp only [List.take_succ_cons, List.mem_cons] at hx
    rcases hx with rfl | hx
    · exact ⟨0, by omega, by simp, rfl⟩
    · obtain ⟨i, hi1, hi2, hi3⟩ := mem_take_exists_getD t n x hx
      exact ⟨i + 1, by omega, by simpa using hi2, by simpa using hi3⟩

/-- C9: in every valid execution, the disconnect notification fires only
after the in-flight connect notification has completely finished (the
connect side has fired `Connected` and released the notification lock), and
in the event sequence every `Disconnected` delivery is strictly preceded by
a `Connected` delivery — also under concurrent `Close` calls, which are
serialized by `closeOnce`/`notifyLk`. -/
theorem disconnect_after_connect (tr : List NotifEvent)
    (hv : notifValid notifInit tr = true) :
    (1 ≤ (notifRun notifInit tr).pcD → (notifRun notifInit tr).pcC = 3)
    ∧ (∀ j, j < tr.length → tr.getD j .acqConnect = .fireDisconnected →
        ∃ i, i < j ∧ tr.getD i .acqConnect = .fireConnected) := by
  constructor
  · exact (notifRun_inv (by simp [notifInv, notifInit]) tr hv).2.2.1
  · intro j hj hfd
    have hen := notifValid_getD_enabled tr notifInit j hv hj
    rw [hfd] at hen
    simp only [notifEnabled, beq_iff_eq] at hen
    have hinv := notifRun_inv (show notifInv notifInit by simp [notifInv, notifInit])
      (tr.take j) (notifValid_take tr notifInit j hv)
    have hpc3 : (notifRun notifInit (tr.take j)).pcC = 3 := hinv.2.2.1 (by omega)
    have hmem : (2 : Nat) ≤ notifInit.pcC ∨ .fireConnected ∈ tr.take j :=
      pcC_ge_two_mem_fireConnected (tr.take j) notifInit
        (notifValid_take tr notifInit j hv) (by omega)
    rcases hmem with h0 | hmemt
    · simp [notifInit] at h0
    · obtain ⟨i, hi1, _, hi3⟩ := mem_take_exists_getD tr j .fireConnected hmemt
      exact ⟨i, hi1, hi3⟩

/-- Witness for the C9 theorem on the full six-event execution. -/
theorem disconnect_after_connect_witness :
    (notifRun notifInit [.acqConnect, .fireConnected, .relConnect, .acqDisconnect,
        .fireDisconnected, .relDisconnect]).pcC = 3
    ∧ ∃ i, i < 4 ∧ ([.acqConnect, .fireConnected, .relConnect, .acqDisconnect,
        .fireDisconnected, .relDisconnect] : List NotifEvent).getD i .acqConnect
          = .fireConnected :=
  ⟨(disconnect_after_connect [.acqConnect, .fireConnected, .relConnect, .acqDisconnect,
      .fireDisconnected, .relDisconnect] (by decide)).1 (by decide),
    (disconnect_after_connect [.acqConnect, .fireConnected, .relConnect, .acqDisconnect,
      .fireDisconnected, .relDisconnect] (by decide)).2 4 (by decide) (by decide)⟩

/-! ## Listener backpressure (`listener.handleIncoming`,
`p2p/net/upgrader/listener.go`)

The accept loop alternates a call to the gated listener's `Accept` and a
`threshold.Wait`; each accepted connection is upgraded by an independent
task which, on completion, calls `threshold.Acquire` (which never blocks),
sends the connection into the accept queue, and calls `threshold.Release`
once it is delivered.  The threshold type itself is not part of the source
snapshot; modelled from the spec: `Wait` pauses the loop while the counter
of upgraded-but-undelivered connections is at or above the configured
maximum `K`, `Acquire` increments and `Release` decrements the counter.
`atAccept` is the loop's program counter: `true` when its next action is
the gated `Accept`, `false` while it is at the wait point. -/

inductive ListenerEv where
  | accept
  | waitPass
  | acquire
  | release
deriving DecidableEq, Repr

structure ListenerState where
  atAccept : Bool
  count : Nat
deriving DecidableEq, Repr

def listenerInit : ListenerState := ⟨true, 0⟩

def lsEnabled (K : Nat) (s : ListenerState) : ListenerEv → Bool
  | .accept => s.atAccept
  | .waitPass => !s.atAccept && decide (s.count < K)
  | .acquire => true
  | .release => decide (0 < s.count)

def lsStep (s : ListenerState) : ListenerEv → ListenerState
  | .accept => { s with atAccept := false }
  | .waitPass => { s with atAccept := true }
  | .acquire => { s with count := s.count + 1 }
  | .release => { s with count := s.count - 1 }

def lsValid (K : Nat) (s : ListenerState) : List ListenerEv → Bool
  | [] => true
  | e :: t => lsEnabled K s e && lsValid K (lsStep s e) t

def lsRun (s : ListenerState) : List ListenerEv → ListenerState
  | [] => s
  | e :: t => lsRun (lsStep s e) t

/-- C8 as stated: once the count of fully-upgraded-but-undelivered
connections has reached the threshold `K` (after event `i`) and stays at or
above it, the loop never calls the gated listener's `Accept` again (event
`j`) until the count drops below `K`. -/
def ListenerClaimStated : Prop :=
  ∀ (K : Nat) (tr : List ListenerEv), lsValid K listenerInit tr = true →
    ∀ i j : Nat, i < j → j < tr.length →
      K ≤ (lsRun listenerInit (tr.take (i + 1))).count →
      (∀ k, i < k → k < j → K ≤ (lsRun listenerInit (tr.take (k + 1))).count) →
      tr.getD j .acquire ≠ .accept

theorem lsValid_take :
    ∀ (tr : List ListenerEv) (K : Nat) (s : ListenerState) (n : Nat),
      lsValid K s tr = true → lsValid K s (tr.take n) = true
  | [], _, _, n => fun _ => by simp [lsValid]
  | e :: t, _, s, 0 => fun _ => rfl
  | e :: t, K, s, n + 1 => fun hv => by
    simp only [lsValid, Bool.and_eq_true] at hv
    simp only [List.take_succ_cons, lsValid, Bool.and_eq_true]
    exact ⟨hv.1, lsValid_take t K (lsStep s e) n hv.2⟩

theorem lsValid_getD_enabled :
    ∀ (tr : List ListenerEv) (K : Nat) (s : ListenerState) (j : Nat),
      lsValid K s tr = true → j < tr.length →
      lsEnabled K (lsRun s (tr.take j)) (tr.getD j .acquire) = true
  | [], _, _, j => fun _ hj => by simp at hj
  | e :: t, K, s, 0 => fun hv _ => by
    simp only [lsValid, Bool.and_eq_true] at hv
    simpa [lsRun] using hv.1
  | e :: t, K, s, m + 1 => fun hv hj => by
    simp only [lsValid, Bool.and_eq_true] at hv
    simp only [List.take_succ_cons, List.getD_cons_succ]
    exact lsValid_getD_enabled t K (lsStep s e) m hv.2 (by simpa using hj)

theorem lsRun_take_succ :
    ∀ (tr : List ListenerEv) (s : ListenerState) (j : Nat), j < tr.length →
      lsRun s (tr.take (j + 1)) = lsStep (lsRun s (tr.take j)) (tr.getD j .acquire)
  | [], _, j => fun hj => by simp at hj
  | e :: t, s, 0 => fun _ => rfl
  | e :: t, s, m + 1 => fun hj => by
    simp only [List.take_succ_cons, List.getD_cons_succ]
    exact lsRun_take_succ t (lsStep s e) m (by simpa using hj)

theorem lsRun_atAccept_false (K : Nat) (tr : List ListenerEv)
    (hv : lsValid K listenerInit tr = true) :
    ∀ (d i : Nat), i + d ≤ tr.length →
      (lsRun listenerInit (tr.take i)).atAccept = false →
      (∀ k, i ≤ k → k < i + d → K ≤ (lsRun listenerInit (tr.take k)).count) →
      (lsRun listenerInit (tr.take (i + d))).atAccept = false := by
  intro d
  induction d with
  | zero => intro i _ h _; simpa using h
  | succ m ih =>
    intro i hlen hfalse hwin
    have hm : (lsRun listenerInit (tr.take (i + m))).atAccept = false :=
      ih i (by omega) hfalse (fun k hk1 hk2 => hwin k hk1 (by omega))
    have hidx : i + m < tr.length := by omega
    have hstep := lsRun_take_succ tr listenerInit (i + m) hidx
    have hen := lsValid_getD_enabled tr K listenerInit (i + m) hv hidx
    have hcnt := hwin (i + m) (by omega) (by omega)
    have hsum : i + (m + 1) = (i + m) + 1 := by omega
    rw [hsum, hstep]
    cases hev : tr.getD (i + m) .acquire with
    | accept =>
      rw [hev] at hen
      simp only [lsEnabled] at hen
      rw [hm] at hen
      cases hen
    | waitPass =>
      rw [hev] at hen
      simp only [lsEnabled, Bool.and_eq_true, decide_eq_true_eq] at hen
      omega
    | acquire => simp [lsStep, hm]
    | release => simp [lsStep, hm]

/-- C8 counterexample: with threshold 1, the loop can be at its `Accept`
call (its wait already passed while the count was still below the
threshold) when an upgrade completes and the count reaches the threshold —
the in-flight iteration still accepts one more raw connection even though
the count never dropped below the threshold.  This is the `K+1` boundary of
the spec's own test sketch. -/
theorem listenerBackpressure_counterexample : ¬ ListenerClaimStated := by
  intro h
  exact h 1 [.accept, .waitPass, .acquire, .accept] (by decide) 2 3 (by decide)
    (by decide) (by decide) (fun k hk1 hk2 => absurd hk2 (by omega)) rfl

/-- C8 (amended): once the accept loop is at its threshold-wait point with
the undelivered count at or above the threshold, it never calls the gated
listener's `Accept` again until the count drops below the threshold (only
the single already-in-flight iteration, whose wait passed while the count
was still below the threshold, may still accept one raw connection); and
the threshold gates only delivery: an upgrade task's `Acquire` is enabled
in every state, so the number of concurrently running upgrade tasks is
never limited by it. -/
theorem listenerBackpressure_wait_gates_accept :
    (∀ (K : Nat) (tr : List ListenerEv), lsValid K listenerInit tr = true →
      ∀ i j : Nat, i ≤ j → j < tr.length →
        (lsRun listenerInit (tr.take i)).atAccept = false →
        (∀ k, i ≤ k → k < j → K ≤ (lsRun listenerInit (tr.take k)).count) →
        tr.getD j .acquire ≠ .accept)
    ∧ (∀ (K : Nat) (s : ListenerState), lsEnabled K s .acquire = true) := by
  constructor
  · intro K tr hv i j hij hjlen hfalse hwin heq
    have hAj : (lsRun listenerInit (tr.take j)).atAccept = false := by
      have := lsRun_atAccept_false K tr hv (j - i) i (by omega) hfalse
        (fun k hk1 hk2 => hwin k hk1 (by omega))
      have hji : i + (j - i) = j := by omega
      rwa [hji] at this
    have hen := lsValid_getD_enabled tr K listenerInit j hv hjlen
    rw [heq] at hen
    simp only [lsEnabled] at hen
    rw [hAj] at hen
    cases hen
  · intro K s
    rfl

/-- Witness for the amended C8 theorem: with threshold 1 and the loop
sitting at its wait point with one undelivered connection, the next event
cannot be a raw accept; and `Acquire` is enabled even with the count far
above the threshold. -/
theorem listenerBackpressure_wait_gates_accept_witness :
    (([.acquire, .accept, .acquire] : List ListenerEv).getD 2 .acquire ≠ .accept)
    ∧ lsEnabled 1 ⟨false, 5⟩ .acquire = true :=
  ⟨listenerBackpressure_wait_gates_accept.1 1 [.acquire, .accept, .acquire] (by decide)
      2 2 (by decide) (by decide) (by decide) (fun k hk1 hk2 => absurd hk2 (by omega)),
    listenerBackpressure_wait_gates_accept.2 1 ⟨false, 5⟩⟩
